import Mathlib

/-!
Shallow embedding of `src/web/src/lib/socket.js` from the Ergodeon repository:
the socket.io binding layer and the Svelte store cells it mutates.

JavaScript values flowing through event payloads are modelled by `JSVal`.
Property access, truthiness, `||` defaulting, `String(...)` coercion,
`JSON.stringify` and string `.slice` are modelled after their JavaScript
semantics as used by the file.  Handlers that can raise a `TypeError`
(property access on `undefined`/`null`, calling `.slice` on the `undefined`
returned by `JSON.stringify(undefined)`) return `Except`.

The store cells of the module (`connected`, `messages`, `logs`, `status`,
`pendingConfirm`, `pipelineDone`, `activeWorkflow`, `activeProject`) together
with the module-local `_socket` and `_msgId` variables form the state `St`.
`Date.now()` is modelled by a monotone clock field.  Outbound
`_socket.emit(...)` calls are recorded in an `emitted` trace list.
-/

/-- A JavaScript value, as needed by the payloads of `socket.js`. -/
inductive JSVal where
  | undefined : JSVal
  | nullv : JSVal
  | bool : Bool → JSVal
  | num : Int → JSVal
  | str : String → JSVal
  | obj : List (String × JSVal) → JSVal


/-- JavaScript truthiness: `undefined`, `null`, `false`, `0` and `""` are falsy. -/
def JSVal.truthy : JSVal → Bool
  | .undefined => false
  | .nullv => false
  | .bool b => b
  | .num n => n != 0
  | .str s => s != ""
  | .obj _ => true

/-- `a || b` in JavaScript: the left operand when truthy, else the right. -/
def jsOr (a b : JSVal) : JSVal := if a.truthy then a else b

/-- Property access `v.k`.  Throws a `TypeError` on `undefined`/`null`;
yields `undefined` for a missing key or for access on another primitive. -/
def JSVal.get (v : JSVal) (k : String) : Except String JSVal :=
  match v with
  | .undefined => .error "TypeError: cannot read properties of undefined"
  | .nullv => .error "TypeError: cannot read properties of null"
  | .obj fs => .ok (((fs.find? (fun p => p.1 == k)).map Prod.snd).getD .undefined)
  | _ => .ok .undefined

/-- `String(v)` / template-literal coercion of a value to a string. -/
def JSVal.toStr : JSVal → String
  | .undefined => "undefined"
  | .nullv => "null"
  | .bool true => "true"
  | .bool false => "false"
  | .num n => toString n
  | .str s => s
  | .obj _ => "[object Object]"

/-- Escape of one character inside a JSON string literal. -/
def jsonEscapeChar (c : Char) : String :=
  if c = '"' then "\\\"" else if c = '\\' then "\\\\" else String.singleton c

/-- Escape of a string for inclusion in JSON output. -/
def jsonEscape (s : String) : String := String.join (s.toList.map jsonEscapeChar)

mutual

/-- `JSON.stringify(v)`: `none` models the `undefined` result on `undefined`
input; object fields whose value is `undefined` are omitted. -/
def jsonStringify : JSVal → Option String
  | .undefined => none
  | .nullv => some "null"
  | .bool true => some "true"
  | .bool false => some "false"
  | .num n => some (toString n)
  | .str s => some ("\"" ++ jsonEscape s ++ "\"")
  | .obj fs => some ("\x7b" ++ jsonFields fs ++ "\x7d")

/-- Serialization of the fields of a JSON object, dropping `undefined` values. -/
def jsonFields : List (String × JSVal) → String
  | [] => ""
  | (k, v) :: rest =>
    match jsonStringify v with
    | none => jsonFields rest
    | some sv =>
      let cur := "\"" ++ jsonEscape k ++ "\":" ++ sv
      let restS := jsonFields rest
      if restS = "" then cur else cur ++ "," ++ restS

end

/-- A chat message as appended by `addMessage` in `socket.js`:
`\x7b id: nextId(), type, text, ts: Date.now(), payload \x7d`. -/
structure Msg where
  id : Nat
  type : JSVal
  text : JSVal
  ts : Nat
  payload : JSVal


/-- A log entry as appended by the `agent:log` / tool handlers:
`\x7b level, msg, ts: Date.now() \x7d`. -/
structure LogEntry where
  level : JSVal
  msg : JSVal
  ts : Nat


/-- The status snapshot object built by the `agent:status` handler. -/
structure StatusRec where
  phase : JSVal
  step : JSVal
  total : JSVal
  description : JSVal
  status : JSVal


/-- The state of the `socket.js` module: every writable store cell plus the
module-local `_socket` (modelled as the flag `socketExists`) and `_msgId`
counter, a clock for `Date.now()`, and the trace of emitted outbound events. -/
structure St where
  socketExists : Bool
  connected : Bool
  messages : List Msg
  logs : List LogEntry
  status : Option StatusRec
  pendingConfirm : JSVal
  pipelineDone : JSVal
  activeWorkflow : JSVal
  activeProject : JSVal
  msgId : Nat
  time : Nat
  emitted : List (String × JSVal)


/-- The module-load state: `_socket = null`, `_msgId = 0`, `connected(false)`,
`messages([])`, `logs([])`, `status(null)`, `pendingConfirm(null)`,
`pipelineDone(null)`, `activeWorkflow(null)`, `activeProject('')`. -/
def stInit : St :=
  { socketExists := false
    connected := false
    messages := []
    logs := []
    status := none
    pendingConfirm := .nullv
    pipelineDone := .nullv
    activeWorkflow := .nullv
    activeProject := .str ""
    msgId := 0
    time := 0
    emitted := [] }

/-- `addMessage(type, text, payload)`: appends a message whose id is the
pre-incremented counter `++_msgId`. -/
def addMessage (st : St) (type text payload : JSVal) : St :=
  { st with
    msgId := st.msgId + 1
    messages := st.messages ++ [⟨st.msgId + 1, type, text, st.time, payload⟩]
    time := st.time + 1 }

/-- `arr.slice(-n)` on an array of length `> n`: the last `n` elements. -/
def takeLast (n : Nat) (l : List α) : List α := l.drop (l.length - n)

/-- JavaScript strict equality `v === 's'` against a string literal. -/
def jsIsStr (v : JSVal) (s : String) : Bool :=
  match v with
  | .str t => t == s
  | _ => false

/-- `typeof v === 'string'`. -/
def JSVal.isString : JSVal → Bool
  | .str _ => true
  | _ => false

/-- Handler for the transport `connect` event:
`connected.set(true); addMessage('system', 'Соединение установлено')`. -/
def handleConnect (st : St) : St :=
  addMessage { st with connected := true }
    (.str "system") (.str "Соединение установлено") .undefined

/-- Handler for the transport `disconnect` event: `connected.set(false);
activeWorkflow.set(null); addMessage('system', 'Соединение разорвано')`. -/
def handleDisconnect (st : St) : St :=
  addMessage { st with connected := false, activeWorkflow := .nullv }
    (.str "system") (.str "Соединение разорвано") .undefined

/-- Handler for `agent:message` (`EVT.MESSAGE`). -/
def handleMessage (st : St) (data : JSVal) : Except String St := do
  let t ← data.get "text"
  let text := jsOr t (.str "")
  let ty ← data.get "type"
  let type := jsOr ty (.str "assistant")
  let p ← data.get "payload"
  let payload := jsOr p .nullv
  let st1 ←
    if payload.truthy then do
      let wf ← payload.get "workflow"
      if wf.truthy then
        let st' := { st with activeWorkflow := wf }
        if !(jsIsStr wf "chat") then do
          let pr ← payload.get "project"
          pure { st' with activeProject := jsOr pr (.str "") }
        else
          pure st'
      else
        pure st
    else
      pure st
  let st2 ←
    if payload.truthy then do
      let s ← payload.get "status"
      if jsIsStr s "completed" then do
        let wf ← payload.get "workflow"
        if !(jsIsStr wf "chat") then
          pure { st1 with pipelineDone := .obj [("status", s)] }
        else
          pure st1
      else
        pure st1
    else
      pure st1
  pure (addMessage st2 type text payload)

/-- Handler for `agent:log` (`EVT.LOG`): appends `\x7b level, msg, ts \x7d` and
caps the list at the most recent 500 entries via `slice(-500)`. -/
def handleLog (st : St) (data : JSVal) : Except String St := do
  let m1 ← data.get "message"
  let msg ←
    if m1.truthy then
      pure m1
    else do
      let m2 ← data.get "msg"
      pure (jsOr m2 (.str ""))
  let l ← data.get "level"
  let level := jsOr l (.str "INFO")
  let next := st.logs ++ [⟨level, msg, st.time⟩]
  let logs := if next.length > 500 then takeLast 500 next else next
  pure { st with logs := logs, time := st.time + 1 }

/-- `s.slice(0, n)` on a string: the first `n` characters. -/
def jsSlice (s : String) (n : Nat) : String := ⟨s.data.take n⟩

/-- Handler for `agent:tool_call` (`EVT.TOOL_CALL`): appends a TOOL-level line
`→ $\x7btool\x7d  $\x7btypeof args === 'string' ? args :
JSON.stringify(args).slice(0, 120)\x7d`; `JSON.stringify(undefined)` is
`undefined`, so `.slice` on it throws. -/
def handleToolCall (st : St) (data : JSVal) : Except String St := do
  let tool ← data.get "tool"
  let args ← data.get "args"
  let argStr ←
    if args.isString then
      pure args.toStr
    else
      match jsonStringify args with
      | some s => pure (jsSlice s 120)
      | none => .error "TypeError: cannot read properties of undefined"
  let msg := "→ " ++ tool.toStr ++ "  " ++ argStr
  pure { st with
    logs := st.logs ++ [⟨.str "TOOL", .str msg, st.time⟩]
    time := st.time + 1 }

/-- Handler for `agent:tool_result` (`EVT.TOOL_RESULT`): appends a TOOL-level
line `← $\x7btool\x7d  $\x7bString(result).slice(0, 120)\x7d`. -/
def handleToolResult (st : St) (data : JSVal) : Except String St := do
  let tool ← data.get "tool"
  let result ← data.get "result"
  let msg := "← " ++ tool.toStr ++ "  " ++ jsSlice result.toStr 120
  pure { st with
    logs := st.logs ++ [⟨.str "TOOL", .str msg, st.time⟩]
    time := st.time + 1 }

/-- Handler for `agent:status` (`EVT.STATUS`): wholesale replacement of the
status snapshot, with inline defaults for every field. -/
def handleStatus (st : St) (data : JSVal) : Except String St := do
  let ph ← data.get "phase"
  let sp ← data.get "step"
  let tot ← data.get "total"
  let d ← data.get "description"
  let s ← data.get "status"
  let snap : StatusRec :=
    { phase := jsOr ph .nullv
      step := jsOr sp (.num 0)
      total := jsOr tot (.num 0)
      description := jsOr d (.str "")
      status := jsOr s .nullv }
  pure { st with status := some snap }

/-- Handler for `agent:error` (`EVT.ERROR`):
`const msg = data.error || data.msg || 'неизвестная ошибка'`. -/
def handleError (st : St) (data : JSVal) : Except String St := do
  let e ← data.get "error"
  let msg ←
    if e.truthy then
      pure e
    else do
      let m ← data.get "msg"
      pure (jsOr m (.str "неизвестная ошибка"))
  pure (addMessage st (.str "error") (.str ("Ошибка: " ++ msg.toStr)) .undefined)

/-- An inbound event delivered to the handlers registered by `connect()`. -/
inductive Ev where
  | conn : Ev
  | disconn : Ev
  | message : JSVal → Ev
  | log : JSVal → Ev
  | toolCall : JSVal → Ev
  | toolResult : JSVal → Ev
  | statusEv : JSVal → Ev
  | confirmEv : JSVal → Ev
  | doneEv : JSVal → Ev
  | errorEv : JSVal → Ev

/-- Dispatch of an inbound event to its registered handler; `.error` is a
thrown `TypeError`.  `agent:confirm` sets `pendingConfirm` to the raw data;
`agent:done` sets `pipelineDone` to the raw data and clears the status. -/
def runEv (st : St) : Ev → Except String St
  | .conn => .ok (handleConnect st)
  | .disconn => .ok (handleDisconnect st)
  | .message d => handleMessage st d
  | .log d => handleLog st d
  | .toolCall d => handleToolCall st d
  | .toolResult d => handleToolResult st d
  | .statusEv d => handleStatus st d
  | .confirmEv d => .ok { st with pendingConfirm := d }
  | .doneEv d => .ok { st with pipelineDone := d, status := none }
  | .errorEv d => handleError st d

/-- State after delivering an inbound event; every store write in the source
happens after all field accesses that can throw, so a thrown handler leaves
the state unchanged. -/
def applyEv (st : St) (e : Ev) : St :=
  match runEv st e with
  | .ok st' => st'
  | .error _ => st

/-- `connect()`: idempotent creation of the module singleton `_socket`. -/
def connectCall (st : St) : St :=
  if st.socketExists then st else { st with socketExists := true }

/-- `sendInput(text)`: no-op unless `_socket` exists; otherwise append a local
user message and emit `agent:input`. -/
def sendInput (st : St) (text : JSVal) : St :=
  if st.socketExists then
    let st1 := addMessage st (.str "user") text .undefined
    { st1 with emitted := st1.emitted ++ [("agent:input", .obj [("text", text)])] }
  else st

/-- `sendConfirm(data, confirmed)`: no-op unless `_socket` exists; otherwise
emit `agent:confirm_response` with a yes/no token and clear `pendingConfirm`. -/
def sendConfirm (st : St) (confirmed : JSVal) : St :=
  if st.socketExists then
    { st with
      emitted := st.emitted ++
        [("agent:confirm_response",
          .obj [("response", .str (if confirmed.truthy then "yes" else "no"))])]
      pendingConfirm := .nullv }
  else st

/-- Fields of an object value (what `\x7b ...spread \x7d` copies). -/
def jsFields : JSVal → List (String × JSVal)
  | .obj fs => fs
  | _ => []

/-- `sendCommand(command, data)`: no-op unless `_socket` exists; otherwise
emit `agent:command` with `\x7b command, ...data \x7d`. -/
def sendCommand (st : St) (command data : JSVal) : St :=
  if st.socketExists then
    { st with
      emitted := st.emitted ++
        [("agent:command", .obj (("command", command) :: jsFields data))] }
  else st

/-- `clearMessages()`: `messages.set([]); pipelineDone.set(null)`. -/
def clearMessages (st : St) : St :=
  { st with messages := [], pipelineDone := .nullv }

/-- `clearLogs()`: `logs.set([])`. -/
def clearLogs (st : St) : St :=
  { st with logs := [] }

/-- An operation on the module: an inbound event or an exported function call. -/
inductive Op where
  | inbound : Ev → Op
  | connectCall : Op
  | sendInput : JSVal → Op
  | sendConfirm : JSVal → Op
  | sendCommand : JSVal → JSVal → Op
  | clearMessages : Op
  | clearLogs : Op

/-- Semantics of one operation. -/
def applyOp (st : St) : Op → St
  | .inbound e => applyEv st e
  | .connectCall => connectCall st
  | .sendInput t => sendInput st t
  | .sendConfirm c => sendConfirm st c
  | .sendCommand c d => sendCommand st c d
  | .clearMessages => clearMessages st
  | .clearLogs => clearLogs st

/-- Transport discipline: handlers exist only once `connect()` created the
socket, the `connect` event fires on a socket that is not connected, and every
other event is delivered only over a live connection. -/
def okStep (st : St) : Op → Bool
  | .inbound .conn => st.socketExists && !st.connected
  | .inbound _ => st.socketExists && st.connected
  | _ => true

/-- The states reachable from module load under the transport discipline. -/
inductive Reachable : St → Prop where
  | init : Reachable stInit
  | step (st : St) (op : Op) : Reachable st → okStep st op = true →
      Reachable (applyOp st op)

/-! ### Basic computation lemmas -/

/-- `>>=` on a successful `Except` computation reduces to the continuation. -/
theorem exceptBind_ok {α β : Type} (a : α) (f : α → Except String β) :
    (Except.ok a : Except String α) >>= f = f a := rfl

/-- `>>=` on a failed `Except` computation propagates the error. -/
theorem exceptBind_error {α β : Type} (e : String) (f : α → Except String β) :
    (Except.error e : Except String α) >>= f = .error e := rfl

/-- `pure` in the `Except` monad is `Except.ok`. -/
theorem exceptPure {α : Type} (a : α) :
    (pure a : Except String α) = .ok a := rfl

/-- Total variant of property access, agreeing with `JSVal.get` on values
that are not `undefined`/`null`. -/
def JSVal.getD (v : JSVal) (k : String) : JSVal :=
  match v with
  | .obj fs => (((fs.find? (fun p => p.1 == k)).map Prod.snd).getD .undefined)
  | _ => .undefined

/-- Property access on a truthy value never throws. -/
theorem get_of_truthy (v : JSVal) (k : String) (hv : v.truthy = true) :
    v.get k = .ok (v.getD k) := by
  cases v <;> first
    | rfl
    | simp [JSVal.truthy] at hv

/-- The `agent:log` handler, when it returns, changes only `logs` (appending
one entry then capping via `slice(-500)`) and the clock. -/
theorem handleLog_ok (st : St) (d : JSVal) (s : St) (h : handleLog st d = .ok s) :
    s.socketExists = st.socketExists ∧ s.connected = st.connected ∧
    s.pendingConfirm = st.pendingConfirm ∧ s.messages = st.messages ∧
    s.msgId = st.msgId ∧ s.activeWorkflow = st.activeWorkflow ∧
    s.activeProject = st.activeProject ∧ s.status = st.status ∧
    s.pipelineDone = st.pipelineDone ∧ s.emitted = st.emitted ∧
    ∃ e : LogEntry,
      s.logs = if (st.logs ++ [e]).length > 500
        then takeLast 500 (st.logs ++ [e]) else st.logs ++ [e] := by
  cases d <;>
    simp only [handleLog, JSVal.get, exceptBind_ok, exceptBind_error,
      exceptPure] at h
  case undefined => cases h
  case nullv => cases h
  all_goals first
    | (cases h
       exact ⟨rfl, rfl, rfl, rfl, rfl, rfl, rfl, rfl, rfl, rfl, _, rfl⟩)
    | (split at h <;> cases h <;>
        exact ⟨rfl, rfl, rfl, rfl, rfl, rfl, rfl, rfl, rfl, rfl, _, rfl⟩)

/-- The `agent:message` handler, when it returns, leaves the connection flag,
pending confirmation, logs, status and emitted trace unchanged, increments the
id counter once, and appends exactly one message carrying the new id. -/
theorem handleMessage_ok (st : St) (d : JSVal) (s : St)
    (h : handleMessage st d = .ok s) :
    s.socketExists = st.socketExists ∧ s.connected = st.connected ∧
    s.pendingConfirm = st.pendingConfirm ∧ s.logs = st.logs ∧
    s.status = st.status ∧ s.emitted = st.emitted ∧
    s.msgId = st.msgId + 1 ∧
    ∃ ty tx pl, s.messages = st.messages ++ [⟨st.msgId + 1, ty, tx, st.time, pl⟩] := by
  cases d <;>
    simp only [handleMessage, JSVal.get, exceptBind_ok, exceptBind_error,
      exceptPure] at h
  case undefined => cases h
  case nullv => cases h
  all_goals
    repeat' first
      | (cases h
         try exact ⟨rfl, rfl, rfl, rfl, rfl, rfl, rfl, _, _, _, rfl⟩)
      | split at h
      | simp only [exceptBind_ok, exceptBind_error, exceptPure] at h

/-- The `agent:tool_call` handler, when it returns, changes only `logs`
(appending exactly one TOOL entry, without any length cap) and the clock. -/
theorem handleToolCall_ok (st : St) (d : JSVal) (s : St)
    (h : handleToolCall st d = .ok s) :
    s.socketExists = st.socketExists ∧ s.connected = st.connected ∧
    s.pendingConfirm = st.pendingConfirm ∧ s.messages = st.messages ∧
    s.msgId = st.msgId ∧ s.activeWorkflow = st.activeWorkflow ∧
    s.activeProject = st.activeProject ∧ s.status = st.status ∧
    s.pipelineDone = st.pipelineDone ∧ s.emitted = st.emitted ∧
    ∃ m : String, s.logs = st.logs ++ [⟨.str "TOOL", .str m, st.time⟩] := by
  cases d <;>
    simp only [handleToolCall, JSVal.get, exceptBind_ok, exceptBind_error,
      exceptPure] at h
  case undefined => cases h
  case nullv => cases h
  all_goals
    repeat' first
      | (cases h
         try exact ⟨rfl, rfl, rfl, rfl, rfl, rfl, rfl, rfl, rfl, rfl, _, rfl⟩)
      | split at h
      | simp only [exceptBind_ok, exceptBind_error, exceptPure] at h

/-- The `agent:tool_result` handler, when it returns, changes only `logs`
(appending exactly one TOOL entry, without any length cap) and the clock. -/
theorem handleToolResult_ok (st : St) (d : JSVal) (s : St)
    (h : handleToolResult st d = .ok s) :
    s.socketExists = st.socketExists ∧ s.connected = st.connected ∧
    s.pendingConfirm = st.pendingConfirm ∧ s.messages = st.messages ∧
    s.msgId = st.msgId ∧ s.activeWorkflow = st.activeWorkflow ∧
    s.activeProject = st.activeProject ∧ s.status = st.status ∧
    s.pipelineDone = st.pipelineDone ∧ s.emitted = st.emitted ∧
    ∃ m : String, s.logs = st.logs ++ [⟨.str "TOOL", .str m, st.time⟩] := by
  cases d <;>
    simp only [handleToolResult, JSVal.get, exceptBind_ok, exceptBind_error,
      exceptPure] at h
  case undefined => cases h
  case nullv => cases h
  all_goals
    repeat' first
      | (cases h
         try exact ⟨rfl, rfl, rfl, rfl, rfl, rfl, rfl, rfl, rfl, rfl, _, rfl⟩)
      | split at h
      | simp only [exceptBind_ok, exceptBind_error, exceptPure] at h

/-- The `agent:status` handler, when it returns, replaces the status snapshot
wholesale and changes nothing else. -/
theorem handleStatus_ok (st : St) (d : JSVal) (s : St)
    (h : handleStatus st d = .ok s) :
    s.socketExists = st.socketExists ∧ s.connected = st.connected ∧
    s.pendingConfirm = st.pendingConfirm ∧ s.messages = st.messages ∧
    s.msgId = st.msgId ∧ s.activeWorkflow = st.activeWorkflow ∧
    s.activeProject = st.activeProject ∧ s.logs = st.logs ∧
    s.pipelineDone = st.pipelineDone ∧ s.emitted = st.emitted ∧
    ∃ r : StatusRec, s.status = some r := by
  cases d <;>
    simp only [handleStatus, JSVal.get, exceptBind_ok, exceptBind_error,
      exceptPure] at h
  case undefined => cases h
  case nullv => cases h
  all_goals
    repeat' first
      | (cases h
         try exact ⟨rfl, rfl, rfl, rfl, rfl, rfl, rfl, rfl, rfl, rfl, _, rfl⟩)
      | split at h
      | simp only [exceptBind_ok, exceptBind_error, exceptPure] at h

/-- The `agent:error` handler, when it returns, appends exactly one
error-typed message with the freshly incremented id and changes nothing
else but the counter and clock. -/
theorem handleError_ok (st : St) (d : JSVal) (s : St)
    (h : handleError st d = .ok s) :
    s.socketExists = st.socketExists ∧ s.connected = st.connected ∧
    s.pendingConfirm = st.pendingConfirm ∧ s.logs = st.logs ∧
    s.status = st.status ∧ s.emitted = st.emitted ∧
    s.activeWorkflow = st.activeWorkflow ∧ s.activeProject = st.activeProject ∧
    s.pipelineDone = st.pipelineDone ∧
    s.msgId = st.msgId + 1 ∧
    ∃ tx, s.messages = st.messages ++
      [⟨st.msgId + 1, .str "error", tx, st.time, .undefined⟩] := by
  cases d <;>
    simp only [handleError, JSVal.get, exceptBind_ok, exceptBind_error,
      exceptPure] at h
  case undefined => cases h
  case nullv => cases h
  all_goals
    repeat' first
      | (cases h
         try exact ⟨rfl, rfl, rfl, rfl, rfl, rfl, rfl, rfl, rfl, rfl, _, rfl⟩)
      | split at h
      | simp only [exceptBind_ok, exceptBind_error, exceptPure] at h

/-- When dispatch succeeds, the delivered state is the handler result. -/
theorem applyEv_eq_ok (st : St) (e : Ev) (s : St) (h : runEv st e = .ok s) :
    applyEv st e = s := by
  unfold applyEv
  rw [h]

/-- When the handler throws, the state is unchanged. -/
theorem applyEv_eq_error (st : St) (e : Ev) (msg : String)
    (h : runEv st e = .error msg) : applyEv st e = st := by
  unfold applyEv
  rw [h]

/-- No inbound event ever changes the `_socket` singleton. -/
theorem applyEv_socketExists (st : St) (e : Ev) :
    (applyEv st e).socketExists = st.socketExists := by
  cases e with
  | conn => rfl
  | disconn => rfl
  | confirmEv d => rfl
  | doneEv d => rfl
  | message d =>
    cases hr : runEv st (.message d) with
    | error m => rw [applyEv_eq_error _ _ _ hr]
    | ok s => rw [applyEv_eq_ok _ _ _ hr]; exact (handleMessage_ok st d s hr).1
  | log d =>
    cases hr : runEv st (.log d) with
    | error m => rw [applyEv_eq_error _ _ _ hr]
    | ok s => rw [applyEv_eq_ok _ _ _ hr]; exact (handleLog_ok st d s hr).1
  | toolCall d =>
    cases hr : runEv st (.toolCall d) with
    | error m => rw [applyEv_eq_error _ _ _ hr]
    | ok s => rw [applyEv_eq_ok _ _ _ hr]; exact (handleToolCall_ok st d s hr).1
  | toolResult d =>
    cases hr : runEv st (.toolResult d) with
    | error m => rw [applyEv_eq_error _ _ _ hr]
    | ok s => rw [applyEv_eq_ok _ _ _ hr]; exact (handleToolResult_ok st d s hr).1
  | statusEv d =>
    cases hr : runEv st (.statusEv d) with
    | error m => rw [applyEv_eq_error _ _ _ hr]
    | ok s => rw [applyEv_eq_ok _ _ _ hr]; exact (handleStatus_ok st d s hr).1
  | errorEv d =>
    cases hr : runEv st (.errorEv d) with
    | error m => rw [applyEv_eq_error _ _ _ hr]
    | ok s => rw [applyEv_eq_ok _ _ _ hr]; exact (handleError_ok st d s hr).1

/-- Agent events (everything except the transport `connect`/`disconnect`)
never change the connection flag. -/
theorem applyEv_connected_of_agent (st : St) (e : Ev) (h1 : e ≠ .conn)
    (h2 : e ≠ .disconn) : (applyEv st e).connected = st.connected := by
  cases e with
  | conn => exact absurd rfl h1
  | disconn => exact absurd rfl h2
  | confirmEv d => rfl
  | doneEv d => rfl
  | message d =>
    cases hr : runEv st (.message d) with
    | error m => rw [applyEv_eq_error _ _ _ hr]
    | ok s => rw [applyEv_eq_ok _ _ _ hr]; exact (handleMessage_ok st d s hr).2.1
  | log d =>
    cases hr : runEv st (.log d) with
    | error m => rw [applyEv_eq_error _ _ _ hr]
    | ok s => rw [applyEv_eq_ok _ _ _ hr]; exact (handleLog_ok st d s hr).2.1
  | toolCall d =>
    cases hr : runEv st (.toolCall d) with
    | error m => rw [applyEv_eq_error _ _ _ hr]
    | ok s => rw [applyEv_eq_ok _ _ _ hr]; exact (handleToolCall_ok st d s hr).2.1
  | toolResult d =>
    cases hr : runEv st (.toolResult d) with
    | error m => rw [applyEv_eq_error _ _ _ hr]
    | ok s =>
      rw [applyEv_eq_ok _ _ _ hr]; exact (handleToolResult_ok st d s hr).2.1
  | statusEv d =>
    cases hr : runEv st (.statusEv d) with
    | error m => rw [applyEv_eq_error _ _ _ hr]
    | ok s => rw [applyEv_eq_ok _ _ _ hr]; exact (handleStatus_ok st d s hr).2.1
  | errorEv d =>
    cases hr : runEv st (.errorEv d) with
    | error m => rw [applyEv_eq_error _ _ _ hr]
    | ok s => rw [applyEv_eq_ok _ _ _ hr]; exact (handleError_ok st d s hr).2.1

/-- Only `agent:confirm` can change the pending-confirmation cell among
inbound events. -/
theorem applyEv_pendingConfirm_of_not_confirm (st : St) (e : Ev)
    (h : ∀ d, e ≠ .confirmEv d) :
    (applyEv st e).pendingConfirm = st.pendingConfirm := by
  cases e with
  | confirmEv d => exact absurd rfl (h d)
  | conn => rfl
  | disconn => rfl
  | doneEv d => rfl
  | message d =>
    cases hr : runEv st (.message d) with
    | error m => rw [applyEv_eq_error _ _ _ hr]
    | ok s => rw [applyEv_eq_ok _ _ _ hr]; exact (handleMessage_ok st d s hr).2.2.1
  | log d =>
    cases hr : runEv st (.log d) with
    | error m => rw [applyEv_eq_error _ _ _ hr]
    | ok s => rw [applyEv_eq_ok _ _ _ hr]; exact (handleLog_ok st d s hr).2.2.1
  | toolCall d =>
    cases hr : runEv st (.toolCall d) with
    | error m => rw [applyEv_eq_error _ _ _ hr]
    | ok s =>
      rw [applyEv_eq_ok _ _ _ hr]; exact (handleToolCall_ok st d s hr).2.2.1
  | toolResult d =>
    cases hr : runEv st (.toolResult d) with
    | error m => rw [applyEv_eq_error _ _ _ hr]
    | ok s =>
      rw [applyEv_eq_ok _ _ _ hr]; exact (handleToolResult_ok st d s hr).2.2.1
  | statusEv d =>
    cases hr : runEv st (.statusEv d) with
    | error m => rw [applyEv_eq_error _ _ _ hr]
    | ok s => rw [applyEv_eq_ok _ _ _ hr]; exact (handleStatus_ok st d s hr).2.2.1
  | errorEv d =>
    cases hr : runEv st (.errorEv d) with
    | error m => rw [applyEv_eq_error _ _ _ hr]
    | ok s => rw [applyEv_eq_ok _ _ _ hr]; exact (handleError_ok st d s hr).2.2.1


/-- Only `connect()` itself can change the `_socket` singleton flag. -/
theorem applyOp_socketExists (st : St) (op : Op) (h : op ≠ .connectCall) :
    (applyOp st op).socketExists = st.socketExists := by
  cases op with
  | connectCall => exact absurd rfl h
  | inbound e => exact applyEv_socketExists st e
  | sendInput t => simp only [applyOp]; unfold sendInput; split <;> rfl
  | sendConfirm c => simp only [applyOp]; unfold sendConfirm; split <;> rfl
  | sendCommand c d => simp only [applyOp]; unfold sendCommand; split <;> rfl
  | clearMessages => rfl
  | clearLogs => rfl

/-- After `connect()` the `_socket` singleton exists. -/
theorem connectCall_socketExists (st : St) :
    (applyOp st .connectCall).socketExists = true := by
  simp only [applyOp]
  unfold connectCall
  split
  · assumption
  · rfl

/-- In every reachable state, a pending confirmation implies the socket
exists: confirmations only arrive through registered handlers. -/
theorem reachable_confirm_socket (st : St) (h : Reachable st) :
    st.socketExists = false → st.pendingConfirm = .nullv := by
  induction h with
  | init => intro _; rfl
  | step st op hre hok ih =>
    intro hc
    cases op with
    | connectCall =>
      rw [connectCall_socketExists] at hc
      cases hc
    | inbound e =>
      rw [applyOp_socketExists st _ (by simp)] at hc
      have hsock : st.socketExists = true := by
        cases e <;> simp [okStep] at hok <;> exact hok.1
      rw [hsock] at hc
      cases hc
    | sendInput t =>
      rw [applyOp_socketExists st _ (by simp)] at hc
      simp [applyOp, sendInput, hc]
      exact ih hc
    | sendConfirm c =>
      rw [applyOp_socketExists st _ (by simp)] at hc
      simp [applyOp, sendConfirm, hc]
      exact ih hc
    | sendCommand c d =>
      rw [applyOp_socketExists st _ (by simp)] at hc
      simp [applyOp, sendCommand, hc]
      exact ih hc
    | clearMessages =>
      rw [applyOp_socketExists st _ (by simp)] at hc
      simp [applyOp, clearMessages]
      exact ih hc
    | clearLogs =>
      rw [applyOp_socketExists st _ (by simp)] at hc
      simp [applyOp, clearLogs]
      exact ih hc

/-- The exported send/clear functions never touch the connection flag. -/
theorem applyOp_connected_of_call (st : St) (op : Op)
    (h : ∀ e, op ≠ .inbound e) :
    (applyOp st op).connected = st.connected := by
  cases op with
  | inbound e => exact absurd rfl (h e)
  | connectCall => simp only [applyOp]; unfold connectCall; split <;> rfl
  | sendInput t => simp only [applyOp]; unfold sendInput; split <;> rfl
  | sendConfirm c => simp only [applyOp]; unfold sendConfirm; split <;> rfl
  | sendCommand c d => simp only [applyOp]; unfold sendCommand; split <;> rfl
  | clearMessages => rfl
  | clearLogs => rfl

/-- The exported send/clear functions never touch the active workflow. -/
theorem applyOp_activeWorkflow_of_call (st : St) (op : Op)
    (h : ∀ e, op ≠ .inbound e) :
    (applyOp st op).activeWorkflow = st.activeWorkflow := by
  cases op with
  | inbound e => exact absurd rfl (h e)
  | connectCall => simp only [applyOp]; unfold connectCall; split <;> rfl
  | sendInput t => simp only [applyOp]; unfold sendInput; split <;> rfl
  | sendConfirm c => simp only [applyOp]; unfold sendConfirm; split <;> rfl
  | sendCommand c d => simp only [applyOp]; unfold sendCommand; split <;> rfl
  | clearMessages => rfl
  | clearLogs => rfl

/-- In every reachable state, a severed connection implies no active
workflow: `disconnect` force-clears it and agent events require a live
connection to be delivered. -/
theorem reachable_disconnected_no_workflow (st : St) (h : Reachable st) :
    st.connected = false → st.activeWorkflow = .nullv := by
  induction h with
  | init => intro _; rfl
  | step st op hre hok ih =>
    intro hc
    cases op with
    | inbound e =>
      cases e with
      | conn =>
        simp [applyOp, applyEv, runEv, handleConnect, addMessage] at hc
      | disconn => rfl
      | message d =>
        rw [applyOp, applyEv_connected_of_agent st _ (by simp) (by simp)] at hc
        simp [okStep] at hok
        rw [hok.2] at hc
        cases hc
      | log d =>
        rw [applyOp, applyEv_connected_of_agent st _ (by simp) (by simp)] at hc
        simp [okStep] at hok
        rw [hok.2] at hc
        cases hc
      | toolCall d =>
        rw [applyOp, applyEv_connected_of_agent st _ (by simp) (by simp)] at hc
        simp [okStep] at hok
        rw [hok.2] at hc
        cases hc
      | toolResult d =>
        rw [applyOp, applyEv_connected_of_agent st _ (by simp) (by simp)] at hc
        simp [okStep] at hok
        rw [hok.2] at hc
        cases hc
      | statusEv d =>
        rw [applyOp, applyEv_connected_of_agent st _ (by simp) (by simp)] at hc
        simp [okStep] at hok
        rw [hok.2] at hc
        cases hc
      | confirmEv d =>
        rw [applyOp, applyEv_connected_of_agent st _ (by simp) (by simp)] at hc
        simp [okStep] at hok
        rw [hok.2] at hc
        cases hc
      | doneEv d =>
        rw [applyOp, applyEv_connected_of_agent st _ (by simp) (by simp)] at hc
        simp [okStep] at hok
        rw [hok.2] at hc
        cases hc
      | errorEv d =>
        rw [applyOp, applyEv_connected_of_agent st _ (by simp) (by simp)] at hc
        simp [okStep] at hok
        rw [hok.2] at hc
        cases hc
    | connectCall =>
      rw [applyOp_connected_of_call st _ (by simp)] at hc
      rw [applyOp_activeWorkflow_of_call st _ (by simp)]
      exact ih hc
    | sendInput t =>
      rw [applyOp_connected_of_call st _ (by simp)] at hc
      rw [applyOp_activeWorkflow_of_call st _ (by simp)]
      exact ih hc
    | sendConfirm c =>
      rw [applyOp_connected_of_call st _ (by simp)] at hc
      rw [applyOp_activeWorkflow_of_call st _ (by simp)]
      exact ih hc
    | sendCommand c d =>
      rw [applyOp_connected_of_call st _ (by simp)] at hc
      rw [applyOp_activeWorkflow_of_call st _ (by simp)]
      exact ih hc
    | clearMessages =>
      rw [applyOp_connected_of_call st _ (by simp)] at hc
      rw [applyOp_activeWorkflow_of_call st _ (by simp)]
      exact ih hc
    | clearLogs =>
      rw [applyOp_connected_of_call st _ (by simp)] at hc
      rw [applyOp_activeWorkflow_of_call st _ (by simp)]
      exact ih hc

/-- Every operation either leaves the message sequence and counter alone,
appends exactly one message carrying the freshly incremented id, or clears
the sequence while keeping the counter. -/
theorem applyOp_messages (st : St) (op : Op) :
    ((applyOp st op).messages = st.messages ∧ (applyOp st op).msgId = st.msgId) ∨
    ((applyOp st op).msgId = st.msgId + 1 ∧ ∃ m : Msg, m.id = st.msgId + 1 ∧
      (applyOp st op).messages = st.messages ++ [m]) ∨
    ((applyOp st op).messages = [] ∧ (applyOp st op).msgId = st.msgId) := by
  cases op with
  | inbound e =>
    cases e with
    | conn => exact .inr (.inl ⟨rfl, _, rfl, rfl⟩)
    | disconn => exact .inr (.inl ⟨rfl, _, rfl, rfl⟩)
    | confirmEv d => exact .inl ⟨rfl, rfl⟩
    | doneEv d => exact .inl ⟨rfl, rfl⟩
    | message d =>
      cases hr : runEv st (.message d) with
      | error m => rw [applyOp, applyEv_eq_error _ _ _ hr]; exact .inl ⟨rfl, rfl⟩
      | ok s =>
        rw [applyOp, applyEv_eq_ok _ _ _ hr]
        obtain ⟨-, -, -, -, -, -, hid, ty, tx, pl, hm⟩ := handleMessage_ok st d s hr
        exact .inr (.inl ⟨hid, ⟨st.msgId + 1, ty, tx, st.time, pl⟩, rfl, hm⟩)
    | log d =>
      cases hr : runEv st (.log d) with
      | error m => rw [applyOp, applyEv_eq_error _ _ _ hr]; exact .inl ⟨rfl, rfl⟩
      | ok s =>
        rw [applyOp, applyEv_eq_ok _ _ _ hr]
        obtain ⟨-, -, -, hm, hid, -⟩ := handleLog_ok st d s hr
        exact .inl ⟨hm, hid⟩
    | toolCall d =>
      cases hr : runEv st (.toolCall d) with
      | error m => rw [applyOp, applyEv_eq_error _ _ _ hr]; exact .inl ⟨rfl, rfl⟩
      | ok s =>
        rw [applyOp, applyEv_eq_ok _ _ _ hr]
        obtain ⟨-, -, -, hm, hid, -⟩ := handleToolCall_ok st d s hr
        exact .inl ⟨hm, hid⟩
    | toolResult d =>
      cases hr : runEv st (.toolResult d) with
      | error m => rw [applyOp, applyEv_eq_error _ _ _ hr]; exact .inl ⟨rfl, rfl⟩
      | ok s =>
        rw [applyOp, applyEv_eq_ok _ _ _ hr]
        obtain ⟨-, -, -, hm, hid, -⟩ := handleToolResult_ok st d s hr
        exact .inl ⟨hm, hid⟩
    | statusEv d =>
      cases hr : runEv st (.statusEv d) with
      | error m => rw [applyOp, applyEv_eq_error _ _ _ hr]; exact .inl ⟨rfl, rfl⟩
      | ok s =>
        rw [applyOp, applyEv_eq_ok _ _ _ hr]
        obtain ⟨-, -, -, hm, hid, -⟩ := handleStatus_ok st d s hr
        exact .inl ⟨hm, hid⟩
    | errorEv d =>
      cases hr : runEv st (.errorEv d) with
      | error m => rw [applyOp, applyEv_eq_error _ _ _ hr]; exact .inl ⟨rfl, rfl⟩
      | ok s =>
        rw [applyOp, applyEv_eq_ok _ _ _ hr]
        obtain ⟨-, -, -, -, -, -, -, -, -, hid, tx, hm⟩ := handleError_ok st d s hr
        exact .inr (.inl ⟨hid, ⟨st.msgId + 1, .str "error", tx, st.time, .undefined⟩,
          rfl, hm⟩)
  | connectCall =>
    simp only [applyOp]
    unfold connectCall
    split
    · exact .inl ⟨rfl, rfl⟩
    · exact .inl ⟨rfl, rfl⟩
  | sendInput t =>
    simp only [applyOp]
    unfold sendInput
    split
    · exact .inr (.inl ⟨rfl, _, rfl, rfl⟩)
    · exact .inl ⟨rfl, rfl⟩
  | sendConfirm c =>
    simp only [applyOp]
    unfold sendConfirm
    split
    · exact .inl ⟨rfl, rfl⟩
    · exact .inl ⟨rfl, rfl⟩
  | sendCommand c d =>
    simp only [applyOp]
    unfold sendCommand
    split
    · exact .inl ⟨rfl, rfl⟩
    · exact .inl ⟨rfl, rfl⟩
  | clearMessages => exact .inr (.inr ⟨rfl, rfl⟩)
  | clearLogs => exact .inl ⟨rfl, rfl⟩

/-- The message-id invariant: ids listed in strictly increasing order and
all bounded by the counter. -/
def MsgInv (st : St) : Prop :=
  List.Pairwise (· < ·) (st.messages.map Msg.id) ∧
  ∀ m ∈ st.messages, m.id ≤ st.msgId

/-- Every operation preserves the message-id invariant. -/
theorem msgInv_step (st : St) (op : Op) (h : MsgInv st) :
    MsgInv (applyOp st op) := by
  obtain ⟨hpair, hle⟩ := h
  rcases applyOp_messages st op with ⟨hm, hid⟩ | ⟨hid, m, hmid, hm⟩ | ⟨hm, hid⟩
  · exact ⟨by rw [hm]; exact hpair, by rw [hm, hid]; exact hle⟩
  · constructor
    · rw [hm, List.map_append, List.pairwise_append]
      refine ⟨hpair, by simp, ?_⟩
      intro a ha b hb
      simp only [List.map_cons, List.map_nil, List.mem_singleton] at hb
      subst hb
      simp only [List.mem_map] at ha
      obtain ⟨m', hm', rfl⟩ := ha
      calc m'.id ≤ st.msgId := hle m' hm'
        _ < m.id := by rw [hmid]; omega
    · intro m' hm'
      rw [hm] at hm'
      rw [hid]
      rcases List.mem_append.mp hm' with hmem | hmem
      · exact Nat.le_succ_of_le (hle m' hmem)
      · simp only [List.mem_singleton] at hmem
        subst hmem
        omega
  · exact ⟨by rw [hm]; simp, by rw [hm]; simp⟩

/-- Every reachable state satisfies the message-id invariant. -/
theorem reachable_msgInv (st : St) (h : Reachable st) : MsgInv st := by
  induction h with
  | init => exact ⟨List.Pairwise.nil, by simp [stInit]⟩
  | step st op hre hok ih => exact msgInv_step st op ih

/-- Lower bound on all message ids, preserved by every operation. -/
def MsgLB (n : Nat) (st : St) : Prop :=
  n ≤ st.msgId ∧ ∀ m ∈ st.messages, n < m.id

/-- Every operation preserves any message-id lower bound. -/
theorem msgLB_step (n : Nat) (st : St) (op : Op) (h : MsgLB n st) :
    MsgLB n (applyOp st op) := by
  obtain ⟨hn, hlb⟩ := h
  rcases applyOp_messages st op with ⟨hm, hid⟩ | ⟨hid, m, hmid, hm⟩ | ⟨hm, hid⟩
  · exact ⟨by omega, by rw [hm]; exact hlb⟩
  · refine ⟨by omega, ?_⟩
    intro m' hm'
    rw [hm] at hm'
    rcases List.mem_append.mp hm' with hmem | hmem
    · exact hlb m' hmem
    · simp only [List.mem_singleton] at hmem
      subst hmem
      omega
  · exact ⟨by omega, by rw [hm]; simp⟩

/-- A message-id lower bound survives any sequence of operations. -/
theorem msgLB_fold (n : Nat) (ops : List Op) :
    ∀ st : St, MsgLB n st → MsgLB n (ops.foldl applyOp st) := by
  induction ops with
  | nil => intro st h; exact h
  | cons op rest ih =>
    intro st h
    exact ih (applyOp st op) (msgLB_step n st op h)

/-! ### Concrete reachable states used by several claims -/

/-- State after `connect()` followed by the transport `connect` event. -/
def stConn : St := applyOp (applyOp stInit .connectCall) (.inbound .conn)

/-- State after `connect()`, the `connect` event, then a `disconnect` event:
the socket object still exists but the connection flag is down. -/
def stDisc : St := applyOp stConn (.inbound .disconn)

/-- The connected state is reachable. -/
theorem stConn_reachable : Reachable stConn :=
  Reachable.step (applyOp stInit .connectCall) (.inbound .conn)
    (Reachable.step stInit .connectCall Reachable.init rfl) rfl

/-- The disconnected-with-socket state is reachable. -/
theorem stDisc_reachable : Reachable stDisc :=
  Reachable.step stConn (.inbound .disconn) stConn_reachable rfl

/-! ### Claim C7 -/

/-- Data of the first `agent:message` in the C7 scenario:
payload `\x7bworkflow:"build", project:"projects/x"\x7d`. -/
def c7data1 : JSVal :=
  .obj [("payload",
    .obj [("workflow", .str "build"), ("project", .str "projects/x")])]

/-- Data of the second `agent:message` in the C7 scenario:
payload `\x7bworkflow:"chat"\x7d`. -/
def c7data2 : JSVal := .obj [("payload", .obj [("workflow", .str "chat")])]

/-- C7: from any store state, an inbound `message` with payload
`\x7bworkflow:"build", project:"projects/x"\x7d` sets the active workflow to
"build" and the active project to "projects/x"; a subsequent `message` with
payload `\x7bworkflow:"chat"\x7d` sets the active workflow to "chat" and
leaves the active-project cell unchanged. -/
theorem c7_build_then_chat (st : St) :
    (applyEv st (.message c7data1)).activeWorkflow = .str "build" ∧
    (applyEv st (.message c7data1)).activeProject = .str "projects/x" ∧
    (applyEv (applyEv st (.message c7data1)) (.message c7data2)).activeWorkflow
      = .str "chat" ∧
    (applyEv (applyEv st (.message c7data1)) (.message c7data2)).activeProject
      = (applyEv st (.message c7data1)).activeProject ∧
    (applyEv (applyEv st (.message c7data1)) (.message c7data2)).activeProject
      = .str "projects/x" :=
  ⟨rfl, rfl, rfl, rfl, rfl⟩

/-! ### Claim C9 -/

/-- C9: for every inbound `done` event and every prior status snapshot, the
handler sets `pipelineDone` to the received record and clears the status
snapshot to absent. -/
theorem c9_done_clears_status (st : St) (d : JSVal) :
    (applyEv st (.doneEv d)).pipelineDone = d ∧
    (applyEv st (.doneEv d)).status = none :=
  ⟨rfl, rfl⟩

/-! ### Claim C10 -/

/-- C10: an inbound `message` whose payload carries a (truthy) workflow tag
different from "chat" but no `project` field sets the active project to the
empty string, erasing any previously stored project path. -/
theorem c10_nonchat_no_project_clears (st : St) (payload : JSVal)
    (hobj : payload.truthy = true)
    (hwf : (payload.getD "workflow").truthy = true)
    (hchat : jsIsStr (payload.getD "workflow") "chat" = false)
    (hproj : payload.getD "project" = .undefined) :
    (applyEv st (.message (.obj [("payload", payload)]))).activeProject
      = .str "" := by
  have hget : ∀ k, payload.get k = .ok (payload.getD k) :=
    fun k => get_of_truthy payload k hobj
  have hT : (JSVal.obj [("payload", payload)]).get "text" = .ok .undefined := rfl
  have hTy : (JSVal.obj [("payload", payload)]).get "type" = .ok .undefined := rfl
  have hP : (JSVal.obj [("payload", payload)]).get "payload" = .ok payload := rfl
  have hO : jsOr payload .nullv = payload := by simp [jsOr, hobj]
  simp only [applyEv, runEv, handleMessage, hT, hTy, hP, exceptBind_ok,
    exceptPure, hO, hget, hobj, hwf, hchat, hproj, Bool.not_false, if_true,
    ite_true]
  split
  · rename_i st2 heq
    split at heq <;> (cases heq; rfl)
  · rename_i m heq
    split at heq <;> cases heq

/-- Witness for C10 at a concrete payload `\x7bworkflow:"build"\x7d`. -/
theorem c10_nonchat_no_project_clears_witness :
    (JSVal.obj [("workflow", .str "build")]).truthy = true ∧
    ((JSVal.obj [("workflow", .str "build")]).getD "workflow").truthy = true ∧
    jsIsStr ((JSVal.obj [("workflow", .str "build")]).getD "workflow") "chat"
      = false ∧
    (JSVal.obj [("workflow", .str "build")]).getD "project" = .undefined ∧
    (applyEv stConn (.message (.obj [("payload",
      .obj [("workflow", .str "build")])]))).activeProject = .str "" :=
  ⟨rfl, rfl, rfl, rfl,
    c10_nonchat_no_project_clears stConn (.obj [("workflow", .str "build")])
      rfl rfl rfl rfl⟩

/-! ### Claim C8 -/

/-- C8: processing a `disconnect` event always leaves the active-workflow
cell null, regardless of its prior value; and in every reachable state a
severed connection implies no active workflow. -/
theorem c8_disconnect_clears_workflow (st : St) (h : Reachable st) :
    (applyEv st .disconn).activeWorkflow = .nullv ∧
    (st.connected = false → st.activeWorkflow = .nullv) :=
  ⟨rfl, reachable_disconnected_no_workflow st h⟩

/-- Witness for C8 at the reachable disconnected state, where the
hypothesis of the inner implication actually holds. -/
theorem c8_disconnect_clears_workflow_witness :
    ((applyEv stDisc .disconn).activeWorkflow = .nullv ∧
      (stDisc.connected = false → stDisc.activeWorkflow = .nullv)) ∧
    stDisc.connected = false :=
  ⟨c8_disconnect_clears_workflow stDisc stDisc_reachable, rfl⟩

/-! ### Claim C5 -/

/-- C5: an inbound `confirm` event fully replaces any prior pending
confirmation, and resolving via `sendConfirm` (accept or deny alike) always
leaves the pending-confirmation cell null afterward, in any reachable
state. -/
theorem c5_confirm_replace_resolve (st : St) (h : Reachable st)
    (d c : JSVal) :
    (applyEv st (.confirmEv d)).pendingConfirm = d ∧
    (sendConfirm st c).pendingConfirm = .nullv := by
  refine ⟨rfl, ?_⟩
  unfold sendConfirm
  split
  · rfl
  · rename_i hs
    simp only [Bool.not_eq_true] at hs
    exact reachable_confirm_socket st h hs

/-- Witness for C5 at the reachable connected state with a concrete
confirmation record and an accept response. -/
theorem c5_confirm_replace_resolve_witness :
    (applyEv stConn (.confirmEv (.obj [("type", .str "confirm")]))).pendingConfirm
      = .obj [("type", .str "confirm")] ∧
    (sendConfirm stConn (.bool true)).pendingConfirm = .nullv :=
  c5_confirm_replace_resolve stConn stConn_reachable
    (.obj [("type", .str "confirm")]) (.bool true)

/-! ### Claim C4 -/

/-- C4: in every reachable state message ids are strictly increasing and
bounded by the counter; `clearMessages` keeps the counter, and after a clear
every message ever appended by any further operation sequence carries an id
strictly greater than the counter at clear time, so ids are never reused. -/
theorem c4_ids_strictly_increasing (st : St) (h : Reachable st) :
    List.Pairwise (· < ·) (st.messages.map Msg.id) ∧
    (∀ m ∈ st.messages, m.id ≤ st.msgId) ∧
    (clearMessages st).msgId = st.msgId ∧
    ∀ ops : List Op, ∀ m ∈ (ops.foldl applyOp (clearMessages st)).messages,
      st.msgId < m.id := by
  obtain ⟨hp, hle⟩ := reachable_msgInv st h
  refine ⟨hp, hle, rfl, ?_⟩
  intro ops m hm
  have hlb := msgLB_fold st.msgId ops (clearMessages st)
    ⟨Nat.le_refl _, by simp [clearMessages]⟩
  exact hlb.2 m hm

/-- Witness for C4 at the reachable connected state, which already holds
one system message. -/
theorem c4_ids_strictly_increasing_witness :
    List.Pairwise (· < ·) (stConn.messages.map Msg.id) ∧
    (∀ m ∈ stConn.messages, m.id ≤ stConn.msgId) ∧
    (clearMessages stConn).msgId = stConn.msgId ∧
    ∀ ops : List Op, ∀ m ∈ (ops.foldl applyOp (clearMessages stConn)).messages,
      stConn.msgId < m.id :=
  c4_ids_strictly_increasing stConn stConn_reachable

/-! ### Claim C1 -/

/-- Data of a well-formed `agent:tool_call` event with string args. -/
def c1ToolData : JSVal := .obj [("tool", .str "t"), ("args", .str "a")]

/-- A `tool_call` with this data appends exactly one TOOL log entry,
with no length cap applied. -/
theorem applyEv_c1ToolData (st : St) :
    applyEv st (.toolCall c1ToolData) =
      { st with logs := st.logs ++ [⟨.str "TOOL", .str "→ t  a", st.time⟩],
                time := st.time + 1 } := rfl

/-- Repeated delivery of the same `tool_call` event. -/
def pumpTool : Nat → St → St
  | 0, st => st
  | n + 1, st => pumpTool n (applyEv st (.toolCall c1ToolData))

/-- Each delivered `tool_call` grows the log by exactly one entry. -/
theorem pumpTool_logs (n : Nat) : ∀ st : St,
    (pumpTool n st).logs.length = st.logs.length + n := by
  induction n with
  | zero => intro st; rfl
  | succ n ih =>
    intro st
    rw [pumpTool, ih, applyEv_c1ToolData]
    simp only [List.length_append, List.length_cons, List.length_nil]
    omega

/-- Delivering `tool_call` events over a live connection keeps the state
reachable. -/
theorem pumpTool_reachable (n : Nat) : ∀ st : St, Reachable st →
    st.socketExists = true → st.connected = true →
    Reachable (pumpTool n st) := by
  induction n with
  | zero => intro st h _ _; exact h
  | succ n ih =>
    intro st h hs hc
    rw [pumpTool]
    exact ih (applyEv st (.toolCall c1ToolData))
      (Reachable.step st (.inbound (.toolCall c1ToolData)) h
        (by simp [okStep, hs, hc]))
      (by rw [applyEv_c1ToolData]; exact hs)
      (by rw [applyEv_c1ToolData]; exact hc)

/-- Counterexample to C1 as stated: 501 inbound `tool_call` events over a
live connection drive the stored log to 501 entries, because the 500-entry
cap is applied only in the `agent:log` handler and not by the
`tool_call`/`tool_result` handlers. -/
theorem c1_log_cap_counterexample :
    Reachable (pumpTool 501 stConn) ∧
    500 < (pumpTool 501 stConn).logs.length := by
  refine ⟨pumpTool_reachable 501 stConn stConn_reachable rfl rfl, ?_⟩
  rw [pumpTool_logs 501 stConn]
  have h0 : stConn.logs.length = 0 := rfl
  omega

/-- C1 amended: for `agent:log` events the bound holds: from any state with
at most 500 stored entries, processing a `log` event leaves at most 500
entries, and whenever the handler appends, the new log is exactly the
most-recent-500 suffix of the old log extended with the new entry (oldest
evicted first, arrival order preserved). -/
theorem c1_log_cap_amended (st : St) (d : JSVal)
    (hlen : st.logs.length ≤ 500) :
    (applyEv st (.log d)).logs.length ≤ 500 ∧
    ∀ s, runEv st (.log d) = .ok s →
      ∃ e : LogEntry, s.logs = takeLast 500 (st.logs ++ [e]) := by
  constructor
  · cases hr : runEv st (.log d) with
    | error m => rw [applyEv_eq_error _ _ _ hr]; exact hlen
    | ok s =>
      rw [applyEv_eq_ok _ _ _ hr]
      obtain ⟨-, -, -, -, -, -, -, -, -, -, e, hlog⟩ := handleLog_ok st d s hr
      rw [hlog]
      split
      · unfold takeLast
        rw [List.length_drop]
        omega
      · rename_i hng
        simp only [List.length_append, List.length_cons, List.length_nil,
          gt_iff_lt, not_lt] at hng ⊢
        omega
  · intro s hr
    obtain ⟨-, -, -, -, -, -, -, -, -, -, e, hlog⟩ := handleLog_ok st d s hr
    refine ⟨e, ?_⟩
    rw [hlog]
    split
    · rfl
    · rename_i hng
      unfold takeLast
      have h0 : (st.logs ++ [e]).length - 500 = 0 := by
        simp only [List.length_append, List.length_cons, List.length_nil,
          gt_iff_lt, not_lt] at hng ⊢
        omega
      rw [h0, List.drop_zero]

/-- Witness for the amended C1 at the empty initial log with a concrete
`log` payload. -/
theorem c1_log_cap_amended_witness :
    stInit.logs.length ≤ 500 ∧
    ((applyEv stInit (.log (.obj [("message", .str "m")]))).logs.length ≤ 500 ∧
      ∀ s, runEv stInit (.log (.obj [("message", .str "m")])) = .ok s →
        ∃ e : LogEntry, s.logs = takeLast 500 (stInit.logs ++ [e])) :=
  ⟨by decide, c1_log_cap_amended stInit (.obj [("message", .str "m")])
    (by decide)⟩

/-! ### Claim C2 -/

/-- Counterexample to C2 as stated: in the reachable state reached after a
`disconnect` (socket object exists, connection flag down), `sendInput` both
mutates the store (appends the optimistic user echo) and emits an outbound
event, because the guard in the source is `!_socket`, not the connection
flag. -/
theorem c2_noop_counterexample :
    stDisc.connected = false ∧ Reachable stDisc ∧
    (sendInput stDisc (.str "hi")).messages.length
      = stDisc.messages.length + 1 ∧
    (sendInput stDisc (.str "hi")).emitted.length
      = stDisc.emitted.length + 1 :=
  ⟨rfl, stDisc_reachable, rfl, rfl⟩

/-- C2 amended: the three outbound calls are silent no-ops exactly when the
socket object has never been created (before the first `connect()` call):
in that case they leave the whole state unchanged and emit nothing. -/
theorem c2_noop_amended (st : St) (h : st.socketExists = false)
    (t c cmd d : JSVal) :
    sendInput st t = st ∧ sendConfirm st c = st ∧ sendCommand st cmd d = st := by
  unfold sendInput sendConfirm sendCommand
  rw [h]
  exact ⟨rfl, rfl, rfl⟩

/-- Witness for the amended C2 at the initial (pre-`connect()`) state. -/
theorem c2_noop_amended_witness :
    stInit.socketExists = false ∧
    (sendInput stInit (.str "x") = stInit ∧
      sendConfirm stInit (.bool true) = stInit ∧
      sendCommand stInit (.str "run") (.obj []) = stInit) :=
  ⟨rfl, c2_noop_amended stInit rfl (.str "x") (.bool true) (.str "run")
    (.obj [])⟩

/-! ### Claim C3 -/

/-- Whether a value is an object. -/
def JSVal.isObj : JSVal → Bool
  | .obj _ => true
  | _ => false

/-- Whether a value is `undefined`. -/
def JSVal.isUndefined : JSVal → Bool
  | .undefined => true
  | _ => false

/-- A value is not `undefined` exactly when `isUndefined` is false. -/
theorem isUndef_eq_false (v : JSVal) : v.isUndefined = false ↔ v ≠ .undefined := by
  cases v <;> simp [JSVal.isUndefined]

/-- `JSON.stringify` returns `undefined` only on `undefined` input. -/
theorem jsonStringify_eq_none (v : JSVal) :
    jsonStringify v = none ↔ v = .undefined := by
  cases v with
  | bool b => cases b <;> simp [jsonStringify]
  | undefined => simp [jsonStringify]
  | nullv => simp [jsonStringify]
  | num n => simp [jsonStringify]
  | str s => simp [jsonStringify]
  | obj fs => simp [jsonStringify]

/-- Well-formedness under which the handlers are throw-free: the payload is
an object and, for `tool_call`, its `args` field is present (not
`undefined`). -/
def evWellFormed : Ev → Bool
  | .conn => true
  | .disconn => true
  | .message d => d.isObj
  | .log d => d.isObj
  | .toolCall d => d.isObj && !(d.getD "args").isUndefined
  | .toolResult d => d.isObj
  | .statusEv d => d.isObj
  | .confirmEv _ => true
  | .doneEv _ => true
  | .errorEv d => d.isObj

/-- Counterexample to C3 as stated: a `tool_call` whose payload merely lacks
the `args` field makes the registered handler throw a `TypeError`, because
`JSON.stringify(undefined)` is `undefined` and `.slice` is called on it. -/
theorem c3_no_throw_counterexample :
    runEv stConn (.toolCall (.obj [("tool", .str "read_file")])) =
      .error "TypeError: cannot read properties of undefined" := rfl

/-- C3 amended: no handler throws provided the event payload is an object
and, for `tool_call`, the `args` field is present; field accesses inside
object payloads all carry inline defaults. -/
theorem c3_no_throw_amended (st : St) (e : Ev) (h : evWellFormed e = true) :
    ∃ s, runEv st e = .ok s := by
  cases e with
  | conn => exact ⟨_, rfl⟩
  | disconn => exact ⟨_, rfl⟩
  | confirmEv d => exact ⟨_, rfl⟩
  | doneEv d => exact ⟨_, rfl⟩
  | message d =>
    cases d <;> simp [evWellFormed, JSVal.isObj] at h
    rename_i fs
    simp only [runEv, handleMessage, JSVal.get, exceptBind_ok, exceptPure]
    repeat' first
      | exact ⟨_, rfl⟩
      | split
      | simp only [exceptBind_ok, exceptPure]
      | simp_all [JSVal.truthy]
  | log d =>
    cases d <;> simp [evWellFormed, JSVal.isObj] at h
    rename_i fs
    simp only [runEv, handleLog, JSVal.get, exceptBind_ok, exceptPure]
    repeat' first
      | exact ⟨_, rfl⟩
      | split
      | simp only [exceptBind_ok, exceptPure]
      | simp_all [JSVal.truthy]
  | toolResult d =>
    cases d <;> simp [evWellFormed, JSVal.isObj] at h
    rename_i fs
    simp only [runEv, handleToolResult, JSVal.get, exceptBind_ok, exceptPure]
    exact ⟨_, rfl⟩
  | statusEv d =>
    cases d <;> simp [evWellFormed, JSVal.isObj] at h
    rename_i fs
    simp only [runEv, handleStatus, JSVal.get, exceptBind_ok, exceptPure]
    exact ⟨_, rfl⟩
  | errorEv d =>
    cases d <;> simp [evWellFormed, JSVal.isObj] at h
    rename_i fs
    simp only [runEv, handleError, JSVal.get, exceptBind_ok, exceptPure]
    repeat' first
      | exact ⟨_, rfl⟩
      | split
      | simp only [exceptBind_ok, exceptPure]
      | simp_all [JSVal.truthy]
  | toolCall d =>
    cases d <;> simp [evWellFormed, JSVal.isObj, JSVal.getD, JSVal.isUndefined] at h
    rename_i fs
    simp only [runEv, handleToolCall, JSVal.get, exceptBind_ok, exceptPure]
    split
    · exact ⟨_, rfl⟩
    · split
      · exact ⟨_, rfl⟩
      · rename_i hnone
        rw [jsonStringify_eq_none] at hnone
        simp_all

/-- Witness for the amended C3 at a concrete well-formed `tool_call`. -/
theorem c3_no_throw_amended_witness :
    evWellFormed (.toolCall c1ToolData) = true ∧
    ∃ s, runEv stConn (.toolCall c1ToolData) = .ok s :=
  ⟨rfl, c3_no_throw_amended stConn (.toolCall c1ToolData) rfl⟩

/-! ### Claim C6 -/

/-- A 121-character string. -/
def c6arg : String := ⟨List.replicate 121 'a'⟩

/-- Data of a `tool_call` whose `args` is the 121-character string. -/
def c6data : JSVal := .obj [("tool", .str "t"), ("args", .str c6arg)]

/-- Counterexample to C6 as stated: when `args` is a string it is embedded
verbatim, so the portion of the TOOL log line following `→ t  ` has 121
characters, exceeding the 120-character cap the claim asserts. -/
theorem c6_toolcall_counterexample :
    (applyEv stConn (.toolCall c6data)).logs =
      stConn.logs ++ [⟨.str "TOOL", .str ("→ t  " ++ c6arg), stConn.time⟩] ∧
    c6arg.length = 121 ∧
    ∀ r : String, "→ t  " ++ c6arg = "→ t  " ++ r → 120 < r.length := by
  refine ⟨rfl, rfl, ?_⟩
  intro r h
  have hd := congrArg String.data h
  simp only [String.data_append] at hd
  have hdr := List.append_cancel_left hd
  have hlen : c6arg.length = r.length := congrArg List.length hdr
  have h121 : c6arg.length = 121 := rfl
  omega

/-- The slice of a string is no longer than the requested length. -/
theorem jsSlice_length_le (s : String) (n : Nat) :
    (jsSlice s n).length ≤ n :=
  List.length_take_le n s.data

/-- C6 amended: an inbound `tool_call` with a tool name and a present args
value appends exactly one TOOL-level entry whose text is `→ `, the tool
name, two spaces, then a rendering of `args`: the string itself, untruncated,
when `args` is a string, else its JSON serialization truncated to at most
120 characters. -/
theorem c6_toolcall_amended (st : St) (tool args : JSVal)
    (h : args ≠ .undefined) :
    ∃ r : String,
      applyEv st (.toolCall (.obj [("tool", tool), ("args", args)])) =
        { st with
          logs := st.logs ++
            [⟨.str "TOOL", .str ("→ " ++ tool.toStr ++ "  " ++ r), st.time⟩]
          time := st.time + 1 } ∧
      (args.isString = true → r = args.toStr) ∧
      (args.isString = false → r.length ≤ 120) := by
  have h1 : (JSVal.obj [("tool", tool), ("args", args)]).get "tool"
      = .ok tool := rfl
  have h2 : (JSVal.obj [("tool", tool), ("args", args)]).get "args"
      = .ok args := rfl
  cases hstr : args.isString with
  | true =>
    refine ⟨args.toStr, ?_, fun _ => rfl, fun hf => Bool.noConfusion hf⟩
    simp only [applyEv, runEv, handleToolCall, h1, h2, exceptBind_ok,
      exceptPure, hstr, if_true, ite_true]
  | false =>
    obtain ⟨j, hj⟩ : ∃ j, jsonStringify args = some j := by
      cases hs : jsonStringify args with
      | none => exact absurd ((jsonStringify_eq_none args).mp hs) h
      | some j => exact ⟨j, rfl⟩
    refine ⟨jsSlice j 120, ?_, fun ht => Bool.noConfusion ht,
      fun _ => jsSlice_length_le j 120⟩
    simp only [applyEv, runEv, handleToolCall, h1, h2, exceptBind_ok,
      exceptPure, hstr, hj, Bool.false_eq_true, if_false, ite_false]

/-- Witness for the amended C6 at the spec's own scenario:
`tool_call` with tool `read_file` and args object `\x7bpath:"a.py"\x7d`. -/
theorem c6_toolcall_amended_witness :
    JSVal.obj [("path", .str "a.py")] ≠ .undefined ∧
    ∃ r : String,
      applyEv stConn (.toolCall (.obj [("tool", .str "read_file"),
          ("args", .obj [("path", .str "a.py")])])) =
        { stConn with
          logs := stConn.logs ++
            [⟨.str "TOOL",
              .str ("→ " ++ (JSVal.str "read_file").toStr ++ "  " ++ r),
              stConn.time⟩]
          time := stConn.time + 1 } ∧
      ((JSVal.obj [("path", .str "a.py")]).isString = true →
        r = (JSVal.obj [("path", .str "a.py")]).toStr) ∧
      ((JSVal.obj [("path", .str "a.py")]).isString = false → r.length ≤ 120) :=
  ⟨fun hx => JSVal.noConfusion hx,
    c6_toolcall_amended stConn (.str "read_file") (.obj [("path", .str "a.py")])
      (fun hx => JSVal.noConfusion hx)⟩
